import Mathlib

/- Verification of the selection-and-transfer engine underlying the parallel
dataset test suite (vol_dataset_test_parallel.c).  The test sources drive an
HDF5-style dataset I/O layer through every combination of dataspace
selections (all / none / hyperslab / point list); the engine that linearizes
selections, pairs source and destination offsets position-by-position and
executes the element copies is not itself part of the test sources, so it is
modelled here from the specification (sections 3, 4.1-4.4, 6 and 7) and the
selection parameters appearing in the tests. -/

set_option maxHeartbeats 1000000

/-- Modelled from the spec: an Extent is an ordered sequence of dimension
sizes; its element count is the product of the sizes (empty product = 1,
matching a scalar dataspace). -/
def listProd (e : List Nat) : Nat := e.foldr (· * ·) 1

@[simp] theorem listProd_nil : listProd [] = 1 := rfl

@[simp] theorem listProd_cons (a : Nat) (l : List Nat) :
    listProd (a :: l) = a * listProd l := rfl

/-- Modelled from the spec: one per-dimension entry of a Hyperslab selection,
`count` blocks of `block` elements starting at `start`, spaced `stride`
apart. -/
structure HDim where
  start : Nat
  stride : Nat
  count : Nat
  block : Nat
  deriving Repr, DecidableEq

/-- Modelled from the spec: a SelectionSpec is a tagged variant over an
extent: every element, no element, a strided hyperslab (one `HDim` per
dimension), or an explicit ordered list of point coordinates. -/
inductive SelectionSpec where
  | all : SelectionSpec
  | none : SelectionSpec
  | hyperslab : List HDim → SelectionSpec
  | points : List (List Nat) → SelectionSpec
  deriving Repr, DecidableEq

/-- Modelled from the spec: row-major (last dimension fastest) flattening of a
coordinate tuple into a flat offset. -/
def flatOffset : List Nat → List Nat → Nat
  | _ :: es, c :: cs => c * listProd es + flatOffset es cs
  | _, _ => 0

/-- Modelled from the spec: the per-dimension index list of one hyperslab
dimension, emitted block by block (`count` outer, `block` inner). -/
def hdimIndices (d : HDim) : List Nat :=
  (List.range d.count).flatMap fun c =>
    (List.range d.block).map fun b => d.start + c * d.stride + b

/-- Modelled from the spec: flat offsets of a hyperslab selection, nested
iteration outer-to-inner in dimension order; rank mismatch between the
dimension list and the extent is rejected at build time, here defensively the
empty sequence. -/
def hyperOffsets : List HDim → List Nat → List Nat
  | [], [] => [0]
  | d :: ds, _ :: es =>
    (hdimIndices d).flatMap fun i =>
      (hyperOffsets ds es).map fun o => i * listProd es + o
  | _, _ => []

/-- Modelled from the spec: flat offsets of the All selection, the full
row-major traversal of the extent. -/
def allOffsets : List Nat → List Nat
  | [] => [0]
  | e :: es =>
    (List.range e).flatMap fun i =>
      (allOffsets es).map fun o => i * listProd es + o

/-- Modelled from the spec: the Linearizer, converting a SelectionSpec plus
extent into the ordered sequence of flat element offsets; point coordinates
are emitted in exactly the caller-supplied order. -/
def linearize : SelectionSpec → List Nat → List Nat
  | SelectionSpec.all, e => allOffsets e
  | SelectionSpec.none, _ => []
  | SelectionSpec.hyperslab ds, e => hyperOffsets ds e
  | SelectionSpec.points cs, e => cs.map (flatOffset e)

/-- Modelled from the spec: `cardinality` returns the element count of a
selection without materializing the sequence (O(rank) for All and Hyperslab,
O(1) for None, stored length for Points). -/
def cardinality : SelectionSpec → List Nat → Nat
  | SelectionSpec.all, e => listProd e
  | SelectionSpec.none, _ => 0
  | SelectionSpec.hyperslab ds, _ => listProd (ds.map fun d => d.count * d.block)
  | SelectionSpec.points cs, _ => cs.length

/-- Modelled from the spec: the rank-match part of constructor validation (a
rank mismatch between spec and extent is an `InvalidSelection` at build
time). -/
def specRankMatches : SelectionSpec → List Nat → Bool
  | SelectionSpec.hyperslab ds, e => ds.length = e.length
  | _, _ => true

/-- Modelled from the spec: error taxonomy of the engine; `CardinalityMismatch`
carries both element counts. -/
inductive TransferError where
  | cardinalityMismatch : Nat → Nat → TransferError
  | nullBuffer : TransferError
  deriving Repr, DecidableEq

/-- Modelled from the spec: the TransferPlanner. It validates equal
cardinality first (computable without materializing either sequence) and only
then zips the two linearized sequences pairwise by position. -/
def planTransfer (srcSpec : SelectionSpec) (srcExt : List Nat)
    (dstSpec : SelectionSpec) (dstExt : List Nat) :
    Except TransferError (List (Nat × Nat)) :=
  let cs := cardinality srcSpec srcExt
  let cd := cardinality dstSpec dstExt
  if cs = cd then
    Except.ok (List.zip (linearize srcSpec srcExt) (linearize dstSpec dstExt))
  else
    Except.error (TransferError.cardinalityMismatch cs cd)

theorem flatMap_range_mul (n P : Nat) :
    ((List.range n).flatMap fun i => (List.range P).map fun o => i * P + o) =
      List.range (n * P) := by
  induction n with
  | zero => simp
  | succ m ih =>
    rw [List.range_succ, List.flatMap_append, ih, List.flatMap_cons,
      List.flatMap_nil, List.append_nil, ← List.range_add, Nat.succ_mul]

theorem allOffsets_eq_range : ∀ e : List Nat, allOffsets e = List.range (listProd e)
  | [] => by simp [allOffsets]; decide
  | e :: es => by
    rw [allOffsets, listProd_cons]
    simp only [allOffsets_eq_range es]
    exact flatMap_range_mul e (listProd es)

/-- C4: for every extent `e`, `linearize (All, e)` is exactly the ascending
list `0, 1, ..., product e - 1`: it equals `List.range (listProd e)`, is
strictly ascending, and contains an offset exactly once iff it is below the
extent's element count. -/
theorem c4_linearize_all_is_range (e : List Nat) :
    linearize SelectionSpec.all e = List.range (listProd e) ∧
    (linearize SelectionSpec.all e).Pairwise (· < ·) ∧
    ∀ o : Nat, o ∈ linearize SelectionSpec.all e ↔ o < listProd e := by
  have h : linearize SelectionSpec.all e = List.range (listProd e) :=
    allOffsets_eq_range e
  refine ⟨h, ?_, ?_⟩
  · rw [h]; exact List.pairwise_lt_range _
  · intro o; rw [h]; exact List.mem_range

/-- C7: `linearize` of a Points selection maps each caller-supplied coordinate
to its flat row-major offset, in exactly the caller-supplied order; on the
point list `[(1,0), (0,2)]` over extent `(3,3)` it yields `[3, 2]`. -/
theorem c7_linearize_points_order :
    (∀ (cs : List (List Nat)) (e : List Nat),
        linearize (SelectionSpec.points cs) e = cs.map (flatOffset e)) ∧
    linearize (SelectionSpec.points [[1, 0], [0, 2]]) [3, 3] = [3, 2] :=
  ⟨fun _ _ => rfl, by decide⟩

/-- Modelled from the spec: elementwise copy memory-to-storage, one CopyPair
`(memory_offset, file_offset)` at a time, in plan order; an out-of-range
destination offset leaves the dataset unchanged (defensively, unreachable for
validated selections). -/
def execWriteGo : List (Nat × Nat) → List Int → List Int → List Int
  | [], _, ds => ds
  | (mo, fo) :: rest, b, ds => execWriteGo rest b (ds.set fo (b.getD mo 0))

/-- Modelled from the spec: the TransferExecutor for a write (memory to
storage).  An empty plan performs no buffer access at all, so it succeeds even
when no buffer was ever allocated (a null buffer pointer). -/
def execWrite (plan : List (Nat × Nat)) (buf : Option (List Int))
    (ds : List Int) : Except TransferError (List Int) :=
  match buf with
  | Option.some b => Except.ok (execWriteGo plan b ds)
  | Option.none =>
    if plan.isEmpty then Except.ok ds else Except.error TransferError.nullBuffer

/-- Modelled from the spec: elementwise copy storage-to-memory, one CopyPair
`(file_offset, memory_offset)` at a time, in plan order. -/
def execReadGo : List (Nat × Nat) → List Int → List Int → List Int
  | [], _, b => b
  | (fo, mo) :: rest, ds, b => execReadGo rest ds (b.set mo (ds.getD fo 0))

/-- Modelled from the spec: the TransferExecutor for a read (storage to
memory); an empty plan never touches the destination buffer, so a null buffer
is accepted and returned untouched. -/
def execRead (plan : List (Nat × Nat)) (ds : List Int)
    (buf : Option (List Int)) : Except TransferError (Option (List Int)) :=
  match buf with
  | Option.some b => Except.ok (Option.some (execReadGo plan ds b))
  | Option.none =>
    if plan.isEmpty then Except.ok Option.none
    else Except.error TransferError.nullBuffer

/-- Modelled from the spec: one whole dataset write: plan the transfer from
the memory selection to the file selection, then execute it against the
dataset's flat element store. -/
def writeDataset (memSpec : SelectionSpec) (memExt : List Nat)
    (fileSpec : SelectionSpec) (fileExt : List Nat)
    (buf : Option (List Int)) (ds : List Int) :
    Except TransferError (List Int) :=
  match planTransfer memSpec memExt fileSpec fileExt with
  | Except.error err => Except.error err
  | Except.ok plan => execWrite plan buf ds

/-- Modelled from the spec: one whole dataset read: plan the transfer from the
file selection to the memory selection, then execute it into the caller's
buffer. -/
def readDataset (fileSpec : SelectionSpec) (fileExt : List Nat)
    (memSpec : SelectionSpec) (memExt : List Nat)
    (ds : List Int) (buf : Option (List Int)) :
    Except TransferError (Option (List Int)) :=
  match planTransfer fileSpec fileExt memSpec memExt with
  | Except.error err => Except.error err
  | Except.ok plan => execRead plan ds buf

theorem length_hdimIndices (d : HDim) :
    (hdimIndices d).length = d.count * d.block := by
  simp [hdimIndices, List.length_flatMap, Function.comp_def, List.map_const',
    List.sum_replicate, smul_eq_mul]

theorem length_hyperOffsets : ∀ (ds : List HDim) (es : List Nat),
    ds.length = es.length →
    (hyperOffsets ds es).length = listProd (ds.map fun d => d.count * d.block)
  | [], [], _ => rfl
  | d :: ds, e :: es, h => by
    have ih := length_hyperOffsets ds es (by simpa using h)
    simp only [hyperOffsets, List.length_flatMap, Function.comp_def,
      List.length_map, ih, List.map_const', List.sum_replicate, smul_eq_mul,
      length_hdimIndices, List.map_cons, listProd_cons]
  | [], _ :: _, h => by simp at h
  | _ :: _, [], h => by simp at h

theorem linearize_length (s : SelectionSpec) (e : List Nat)
    (h : specRankMatches s e = true) :
    (linearize s e).length = cardinality s e := by
  cases s with
  | all => simp [linearize, cardinality, allOffsets_eq_range]
  | none => rfl
  | hyperslab ds =>
    exact length_hyperOffsets ds e (by simpa [specRankMatches] using h)
  | points cs => simp [linearize, cardinality]

/-- C8: for every well-formed SelectionSpec over an extent, the length of the
materialized linearized sequence equals `cardinality`; and linearizing the
None selection gives the empty sequence for every extent. -/
theorem c8_linearize_length_eq_cardinality (s : SelectionSpec) (e : List Nat)
    (h : specRankMatches s e = true) :
    (linearize s e).length = cardinality s e ∧
    linearize SelectionSpec.none e = [] :=
  ⟨linearize_length s e h, rfl⟩

/-- Witness for C8 at a concrete hyperslab selection over extent `[4]`. -/
theorem c8_linearize_length_eq_cardinality_w :
    specRankMatches (SelectionSpec.hyperslab [⟨0, 2, 2, 1⟩]) [4] = true ∧
    ((linearize (SelectionSpec.hyperslab [⟨0, 2, 2, 1⟩]) [4]).length =
        cardinality (SelectionSpec.hyperslab [⟨0, 2, 2, 1⟩]) [4] ∧
      linearize SelectionSpec.none [4] = []) :=
  ⟨by decide, c8_linearize_length_eq_cardinality _ _ (by decide)⟩

/-- C5: whenever the two selections' cardinalities differ, `planTransfer`
fails with `CardinalityMismatch` carrying both counts; the error is produced
by the planner itself (no executor is involved, hence before any I/O) and is
computed from the O(rank) cardinalities alone, never from the linearized
sequences. -/
theorem c5_planTransfer_cardinality_mismatch (srcSpec : SelectionSpec)
    (srcExt : List Nat) (dstSpec : SelectionSpec) (dstExt : List Nat)
    (h : cardinality srcSpec srcExt ≠ cardinality dstSpec dstExt) :
    planTransfer srcSpec srcExt dstSpec dstExt =
      Except.error (TransferError.cardinalityMismatch
        (cardinality srcSpec srcExt) (cardinality dstSpec dstExt)) := by
  simp [planTransfer, h]

/-- Witness for C5: a five-point source against a four-point destination fails
with `CardinalityMismatch (5, 4)`. -/
theorem c5_planTransfer_cardinality_mismatch_w :
    cardinality (SelectionSpec.points [[0], [1], [2], [3], [4]]) [10] ≠
      cardinality (SelectionSpec.points [[0], [1], [2], [3]]) [10] ∧
    planTransfer (SelectionSpec.points [[0], [1], [2], [3], [4]]) [10]
        (SelectionSpec.points [[0], [1], [2], [3]]) [10] =
      Except.error (TransferError.cardinalityMismatch 5 4) :=
  ⟨by decide,
    c5_planTransfer_cardinality_mismatch _ _ _ _ (by decide)⟩

theorem getD_set_ne (l : List Int) (i j : Nat) (v : Int) (h : i ≠ j) :
    (l.set i v).getD j 0 = l.getD j 0 := by
  simp [List.getD_eq_getElem?_getD, List.getElem?_set_ne h]

theorem getD_set_self (l : List Int) (i : Nat) (v : Int) (h : i < l.length) :
    (l.set i v).getD i 0 = v := by
  simp [List.getD_eq_getElem?_getD, List.getElem?_set_self h]

/-- Modelled from the spec: the effect of a write plan on the dataset reduces
to applying an ordered list of (value, destination offset) element stores. -/
def setVals : List (Int × Nat) → List Int → List Int
  | [], ds => ds
  | (v, fo) :: rest, ds => setVals rest (ds.set fo v)

theorem setVals_length : ∀ (l : List (Int × Nat)) (ds : List Int),
    (setVals l ds).length = ds.length
  | [], _ => rfl
  | (v, fo) :: rest, ds => by
    rw [setVals, setVals_length rest, List.length_set]

theorem setVals_getD_of_notin : ∀ (l : List (Int × Nat)) (ds : List Int)
    (p : Nat), (∀ pr ∈ l, pr.2 ≠ p) →
    (setVals l ds).getD p 0 = ds.getD p 0
  | [], _, _, _ => rfl
  | (v, fo) :: rest, ds, p, h => by
    rw [setVals,
      setVals_getD_of_notin rest _ p fun pr hm => h pr (List.mem_cons_of_mem _ hm),
      getD_set_ne _ _ _ _ (h (v, fo) (List.mem_cons_self _ _))]

/-- Position-based pairing made explicit: a write through any plan
`zip memOffsets fileOffsets` depends on the memory buffer only through the
sequence of values it holds at the memory offsets, taken in order. -/
theorem execWriteGo_zip_eq_setVals : ∀ (moffs foffs : List Nat) (b ds : List Int),
    execWriteGo (List.zip moffs foffs) b ds =
      setVals (List.zip (moffs.map fun mo => b.getD mo 0) foffs) ds
  | [], _, _, _ => rfl
  | _ :: _, [], _, _ => rfl
  | mo :: ms, fo :: fs, b, ds => by
    rw [List.zip_cons_cons, execWriteGo, List.map_cons, List.zip_cons_cons,
      setVals]
    exact execWriteGo_zip_eq_setVals ms fs b _

theorem setVals_range'_getD : ∀ (vals : List Int) (a : Nat) (ds : List Int)
    (i : Nat), i < vals.length → a + vals.length ≤ ds.length →
    (setVals (List.zip vals (List.range' a vals.length)) ds).getD (a + i) 0 =
      vals.getD i 0
  | [], _, _, _, hi, _ => absurd hi (by simp)
  | v :: vs, a, ds, i, hi, hb => by
    rw [List.length_cons, List.range'_succ, List.zip_cons_cons, setVals]
    have hb' : a + vs.length + 1 ≤ ds.length := by
      have h := hb
      simp only [List.length_cons] at h
      omega
    cases i with
    | zero =>
      rw [Nat.add_zero, setVals_getD_of_notin]
      · exact getD_set_self ds a v (by omega)
      · intro pr hm hbad
        have h2 := (List.of_mem_zip hm).2
        rw [hbad] at h2
        rcases List.mem_range'.mp h2 with ⟨t, _, ht⟩
        omega
    | succ j =>
      have heq : a + (j + 1) = (a + 1) + j := by omega
      rw [heq,
        setVals_range'_getD vs (a + 1) (ds.set a v) j (by
          simpa using Nat.lt_of_succ_lt_succ hi) (by
          rw [List.length_set]; omega),
        List.getD_cons_succ]

theorem setVals_zip_range'_getD_of_lt : ∀ (vals : List Int) (a : Nat)
    (ds : List Int) (p : Nat), p < a →
    (setVals (List.zip vals (List.range' a vals.length)) ds).getD p 0 =
      ds.getD p 0 := by
  intro vals a ds p hp
  apply setVals_getD_of_notin
  intro pr hm hbad
  have h2 := (List.of_mem_zip hm).2
  rw [hbad] at h2
  rcases List.mem_range'.mp h2 with ⟨t, _, ht⟩
  omega

theorem setVals_zip_range'_getD_of_ge : ∀ (vals : List Int) (a : Nat)
    (ds : List Int) (p : Nat), a + vals.length ≤ p →
    (setVals (List.zip vals (List.range' a vals.length)) ds).getD p 0 =
      ds.getD p 0 := by
  intro vals a ds p hp
  apply setVals_getD_of_notin
  intro pr hm hbad
  have h2 := (List.of_mem_zip hm).2
  rw [hbad] at h2
  rcases List.mem_range'.mp h2 with ⟨t, ht2, ht⟩
  omega

theorem execReadGo_getD_of_notin : ∀ (plan : List (Nat × Nat))
    (dsv b : List Int) (p : Nat), (∀ pr ∈ plan, pr.2 ≠ p) →
    (execReadGo plan dsv b).getD p 0 = b.getD p 0
  | [], _, _, _, _ => rfl
  | (fo, mo) :: rest, dsv, b, p, h => by
    rw [execReadGo,
      execReadGo_getD_of_notin rest _ _ p fun pr hm =>
        h pr (List.mem_cons_of_mem _ hm),
      getD_set_ne _ _ _ _ (h (fo, mo) (List.mem_cons_self _ _))]

/-- C9: a read transfer writes only the destination-buffer positions whose
flat offsets appear in the memory selection: any position outside the
linearized memory selection holds its old value after the read. -/
theorem c9_read_touches_only_selected (fileSpec : SelectionSpec)
    (fileExt : List Nat) (memSpec : SelectionSpec) (memExt : List Nat)
    (dsv b : List Int) (p : Nat)
    (hcard : cardinality fileSpec fileExt = cardinality memSpec memExt)
    (hp : p ∉ linearize memSpec memExt) :
    ∃ b', readDataset fileSpec fileExt memSpec memExt dsv (Option.some b) =
        Except.ok (Option.some b') ∧ b'.getD p 0 = b.getD p 0 := by
  refine ⟨execReadGo
    (List.zip (linearize fileSpec fileExt) (linearize memSpec memExt)) dsv b,
    ?_, ?_⟩
  · simp [readDataset, planTransfer, hcard, execRead]
  · apply execReadGo_getD_of_notin
    intro pr hm hbad
    exact hp (hbad ▸ (List.of_mem_zip hm).2)

/-- Witness for C9: reading one dataset row through an even-index point
selection of a double-sized buffer leaves the odd position 1 at its prior
value. -/
theorem c9_read_touches_only_selected_w :
    ∃ b', readDataset (SelectionSpec.hyperslab [⟨0, 1, 1, 1⟩, ⟨0, 1, 1, 2⟩])
        [2, 2] (SelectionSpec.points [[0], [2]]) [4]
        [10, 20, 30, 40] (Option.some [5, 7, 9, 11]) =
        Except.ok (Option.some b') ∧
      b'.getD 1 0 = ([5, 7, 9, 11] : List Int).getD 1 0 :=
  c9_read_touches_only_selected _ _ _ _ _ _ _ (by decide) (by decide)

/-- C10: a participant whose memory and file selections are both empty gets an
empty transfer plan, so both write and read succeed without ever touching the
data buffer, even when no buffer was allocated at all (a null buffer). -/
theorem c10_empty_selection_null_buffer (memSpec : SelectionSpec)
    (memExt : List Nat) (fileSpec : SelectionSpec) (fileExt : List Nat)
    (dsv : List Int)
    (hm : cardinality memSpec memExt = 0)
    (hf : cardinality fileSpec fileExt = 0)
    (hrk : specRankMatches memSpec memExt = true) :
    writeDataset memSpec memExt fileSpec fileExt Option.none dsv =
      Except.ok dsv ∧
    readDataset fileSpec fileExt memSpec memExt dsv Option.none =
      Except.ok Option.none := by
  have hlen : (linearize memSpec memExt).length = 0 :=
    (linearize_length memSpec memExt hrk).trans hm
  have hnil : linearize memSpec memExt = [] := List.length_eq_zero.mp hlen
  constructor
  · simp [writeDataset, planTransfer, hm, hf, hnil, execWrite]
  · simp [readDataset, planTransfer, hm, hf, hnil, execRead]

/-- Witness for C10: the rank-0 participant of the zero-selection tests, with
a `count = 0, block = 0` hyperslab on the file side, an extent-0 All selection
on the memory side and no allocated buffer. -/
theorem c10_empty_selection_null_buffer_w :
    cardinality SelectionSpec.all [0] = 0 ∧
    cardinality (SelectionSpec.hyperslab [⟨0, 1, 0, 0⟩, ⟨0, 1, 0, 0⟩]) [4, 3] = 0 ∧
    specRankMatches SelectionSpec.all [0] = true ∧
    (writeDataset SelectionSpec.all [0]
        (SelectionSpec.hyperslab [⟨0, 1, 0, 0⟩, ⟨0, 1, 0, 0⟩]) [4, 3]
        Option.none [1, 2, 3] = Except.ok [1, 2, 3] ∧
      readDataset (SelectionSpec.hyperslab [⟨0, 1, 0, 0⟩, ⟨0, 1, 0, 0⟩]) [4, 3]
        SelectionSpec.all [0] [1, 2, 3] Option.none = Except.ok Option.none) :=
  ⟨by decide, by decide, by decide,
    c10_empty_selection_null_buffer _ _ _ _ _ (by decide) (by decide) (by decide)⟩

theorem getD_replicate (k : Nat) (v : Int) (j : Nat) (hj : j < k) :
    (List.replicate k v).getD j 0 = v := by
  simp [List.getD_eq_getElem?_getD, List.getElem?_replicate_of_lt hj]

theorem map_getD_range (b : List Int) :
    (List.range b.length).map (fun i => b.getD i 0) = b := by
  apply List.ext_getElem (by simp)
  intro i h1 h2
  simp [List.getD_eq_getElem?_getD, List.getElem?_eq_getElem h2]

theorem getD_range (N i : Nat) (hi : i < N) : (List.range N).getD i 0 = i := by
  simp [List.getD_eq_getElem?_getD, List.getElem?_range hi]

/-- A planned write with matching cardinalities succeeds and reduces to the
ordered element stores obtained by pairing the linearized memory values with
the linearized file offsets position by position. -/
theorem writeDataset_ok (memSpec : SelectionSpec) (memExt : List Nat)
    (fileSpec : SelectionSpec) (fileExt : List Nat) (buf ds : List Int)
    (hcard : cardinality memSpec memExt = cardinality fileSpec fileExt) :
    writeDataset memSpec memExt fileSpec fileExt (Option.some buf) ds =
      Except.ok (setVals
        (List.zip ((linearize memSpec memExt).map fun mo => buf.getD mo 0)
          (linearize fileSpec fileExt)) ds) := by
  simp [writeDataset, planTransfer, hcard, execWrite, execWriteGo_zip_eq_setVals]

/-- A planned read with matching cardinalities succeeds and reduces to the
ordered buffer stores pairing file offsets with memory offsets by position. -/
theorem readDataset_ok (fileSpec : SelectionSpec) (fileExt : List Nat)
    (memSpec : SelectionSpec) (memExt : List Nat) (dsv b : List Int)
    (hcard : cardinality fileSpec fileExt = cardinality memSpec memExt) :
    readDataset fileSpec fileExt memSpec memExt dsv (Option.some b) =
      Except.ok (Option.some (execReadGo
        (List.zip (linearize fileSpec fileExt) (linearize memSpec memExt))
        dsv b)) := by
  simp [readDataset, planTransfer, hcard, execRead]

theorem execReadGo_zip_range'_getD : ∀ (foffs : List Nat) (a : Nat)
    (dsv b : List Int) (i : Nat), i < foffs.length → a + foffs.length ≤ b.length →
    (execReadGo (List.zip foffs (List.range' a foffs.length)) dsv b).getD (a + i) 0 =
      dsv.getD (foffs.getD i 0) 0
  | [], _, _, _, _, hi, _ => absurd hi (by simp)
  | fo :: fs, a, dsv, b, i, hi, hb => by
    rw [List.length_cons, List.range'_succ, List.zip_cons_cons, execReadGo]
    have hb' : a + fs.length + 1 ≤ b.length := by
      have h := hb
      simp only [List.length_cons] at h
      omega
    cases i with
    | zero =>
      rw [Nat.add_zero, execReadGo_getD_of_notin]
      · exact getD_set_self b a _ (by omega)
      · intro pr hm hbad
        have h2 := (List.of_mem_zip hm).2
        rw [hbad] at h2
        rcases List.mem_range'.mp h2 with ⟨t, _, ht⟩
        omega
    | succ j =>
      have heq : a + (j + 1) = (a + 1) + j := by omega
      rw [heq,
        execReadGo_zip_range'_getD fs (a + 1) dsv (b.set a (dsv.getD fo 0)) j
          (by simpa using Nat.lt_of_succ_lt_succ hi)
          (by rw [List.length_set]; omega),
        List.getD_cons_succ]

theorem execReadGo_length : ∀ (plan : List (Nat × Nat)) (dsv b : List Int),
    (execReadGo plan dsv b).length = b.length
  | [], _, _ => rfl
  | (fo, mo) :: rest, dsv, b => by
    rw [execReadGo, execReadGo_length rest, List.length_set]

/-- Row-structured multi-participant write: if each participant `r < n`
contributes one block of at most `k` values placed at flat offset `r * k`,
folding the participants in rank order succeeds, preserves the dataset's
length, stores every participant's values at its block and leaves every
position outside all written blocks untouched. -/
theorem foldRows_ok (n k : Nat)
    (step : List Int → Nat → Except TransferError (List Int))
    (vals : Nat → List Int)
    (hstep : ∀ (d : List Int) (r : Nat), r < n → d.length = n * k →
      step d r = Except.ok
        (setVals (List.zip (vals r) (List.range' (r * k) (vals r).length)) d))
    (hvlen : ∀ r, r < n → (vals r).length ≤ k) :
    ∀ (m : Nat) (ds : List Int), m ≤ n → ds.length = n * k →
    ∃ final, (List.range m).foldlM step ds = Except.ok final ∧
      final.length = n * k ∧
      (∀ r j, r < m → j < (vals r).length →
        final.getD (r * k + j) 0 = (vals r).getD j 0) ∧
      (∀ p : Nat,
        (∀ r, r < m → p < r * k ∨ r * k + (vals r).length ≤ p) →
        final.getD p 0 = ds.getD p 0) := by
  intro m
  induction m with
  | zero =>
    intro ds _ hlen
    exact ⟨ds, rfl, hlen, fun r j hr _ => absurd hr (Nat.not_lt_zero r),
      fun p _ => rfl⟩
  | succ m ih =>
    intro ds hmn hlen
    have hm : m ≤ n := Nat.le_of_succ_le hmn
    have hmlt : m < n := Nat.lt_of_succ_le hmn
    obtain ⟨f1, hf1, hlen1, hval1, hframe1⟩ := ih ds hm hlen
    have hblock : m * k + (vals m).length ≤ n * k := by
      have h1 : m * k + (vals m).length ≤ m * k + k :=
        Nat.add_le_add_left (hvlen m hmlt) _
      have h2 : m * k + k ≤ n * k := by
        rw [← Nat.succ_mul]
        exact Nat.mul_le_mul_right k hmn
      omega
    refine ⟨setVals (List.zip (vals m) (List.range' (m * k) (vals m).length)) f1,
      ?_, ?_, ?_, ?_⟩
    · rw [List.range_succ, List.foldlM_append, hf1]
      show List.foldlM step f1 [m] = _
      rw [List.foldlM_cons, hstep f1 m hmlt hlen1]
      rfl
    · rw [setVals_length, hlen1]
    · intro r j hr hj
      rcases Nat.lt_succ_iff_lt_or_eq.mp hr with hr' | hr'
      · have hpos : r * k + j < m * k := by
          have h1 : r * k + j < r * k + k := by
            have := Nat.lt_of_lt_of_le hj (hvlen r (Nat.lt_of_lt_of_le hr' hm))
            omega
          have h2 : r * k + k ≤ m * k := by
            rw [← Nat.succ_mul]
            exact Nat.mul_le_mul_right k hr'
          omega
        rw [setVals_zip_range'_getD_of_lt _ _ _ _ hpos]
        exact hval1 r j hr' hj
      · subst hr'
        rw [setVals_range'_getD _ _ _ _ hj (by omega)]
    · intro p hp
      have hm' : p < m * k ∨ m * k + (vals m).length ≤ p :=
        hp m (Nat.lt_succ_self m)
      have hrest : (setVals (List.zip (vals m)
          (List.range' (m * k) (vals m).length)) f1).getD p 0 = f1.getD p 0 := by
        rcases hm' with h | h
        · exact setVals_zip_range'_getD_of_lt _ _ _ _ h
        · exact setVals_zip_range'_getD_of_ge _ _ _ _ h
      rw [hrest]
      exact hframe1 p fun r hr => hp r (Nat.lt_succ_of_lt hr)

/-- From the write-verification tests: rank `r`'s file-side selection, one
full row of a 2-D `(n, k)` dataset as the hyperslab `start = [r, 0]`,
`stride = [1, 1]`, `count = [1, 1]`, `block = [1, k]`. -/
def rowSel (r k : Nat) : SelectionSpec :=
  SelectionSpec.hyperslab [⟨r, 1, 1, 1⟩, ⟨0, 1, 1, k⟩]

theorem linearize_all_extent1 (k : Nat) :
    linearize SelectionSpec.all [k] = List.range k := by
  simp [linearize, allOffsets_eq_range]

theorem linearize_all_extent2 (n k : Nat) :
    linearize SelectionSpec.all [n, k] = List.range (n * k) := by
  simp [linearize, allOffsets_eq_range, Nat.mul_assoc]

theorem linearize_rowSel (n k r : Nat) :
    linearize (rowSel r k) [n, k] = List.range' (r * k) k := by
  simp [rowSel, linearize, hyperOffsets, hdimIndices, List.range_succ,
    List.flatMap_cons, List.flatMap_nil, List.map_map, Function.comp_def,
    List.range'_eq_map_range]

theorem map_getD_eq_self (b : List Int) (m : Nat) (hm : b.length = m) :
    (List.range m).map (fun i => b.getD i 0) = b := by
  subst hm
  exact map_getD_range b

/-- From the data-verification and independent-write tests: rank `r` writes a
length-`k` buffer filled with its own rank value through an All memory
selection into row `r` of the `(n, k)` dataset. -/
def rankRowWrite (n k r : Nat) (ds : List Int) :
    Except TransferError (List Int) :=
  writeDataset SelectionSpec.all [k] (rowSel r k) [n, k]
    (Option.some (List.replicate k (r : Int))) ds

theorem rankRowWrite_ok (n k r : Nat) (ds : List Int) :
    rankRowWrite n k r ds = Except.ok (setVals
      (List.zip (List.replicate k (r : Int)) (List.range' (r * k) k)) ds) := by
  rw [rankRowWrite,
    writeDataset_ok _ _ _ _ _ _ (by simp [cardinality, rowSel]),
    linearize_rowSel, linearize_all_extent1,
    map_getD_eq_self _ _ (List.length_replicate _ _)]

/-- The full N-participant write of the rank-row scenario, participants
applied in rank order (the written rows are pairwise disjoint, so this is a
representative serialization of the independent writes). -/
def allRanksWrite (n k : Nat) (ds : List Int) :
    Except TransferError (List Int) :=
  (List.range n).foldlM (fun d r => rankRowWrite n k r d) ds

/-- C2: if each of `n` participants writes a buffer filled with its rank
through the one-row hyperslab `start = [r, 0]`, `block = [1, k]` of an
`(n, k)` dataset, the combined write succeeds and a subsequent All-selection
read of the whole dataset returns, at every row `r` and column `j`, the
value `r`. -/
theorem c2_rank_rows_write_read (n k r j : Nat) (hr : r < n) (hj : j < k) :
    ∃ (final rb : List Int),
      allRanksWrite n k (List.replicate (n * k) 0) = Except.ok final ∧
      readDataset SelectionSpec.all [n, k] SelectionSpec.all [n * k] final
        (Option.some (List.replicate (n * k) 0)) =
        Except.ok (Option.some rb) ∧
      rb.getD (r * k + j) 0 = (r : Int) := by
  obtain ⟨final, hfin, hlen, hval, -⟩ :=
    foldRows_ok n k (fun d rr => rankRowWrite n k rr d)
      (fun rr => List.replicate k (rr : Int))
      (fun d rr _ _ => by simp [rankRowWrite_ok])
      (fun rr _ => by simp)
      n (List.replicate (n * k) 0) (Nat.le_refl n) (by simp)
  have hpos : r * k + j < n * k := by
    have h1 : r * k + j < r * k + k := by omega
    have h2 : r * k + k ≤ n * k := by
      rw [← Nat.succ_mul]
      exact Nat.mul_le_mul_right k hr
    omega
  refine ⟨final,
    execReadGo (List.zip (List.range (n * k)) (List.range (n * k))) final
      (List.replicate (n * k) 0), hfin, ?_, ?_⟩
  · rw [readDataset_ok _ _ _ _ _ _ (by simp [cardinality, Nat.mul_assoc]),
      linearize_all_extent2, linearize_all_extent1]
  · have hread := execReadGo_zip_range'_getD (List.range (n * k)) 0 final
      (List.replicate (n * k) 0) (r * k + j) (by simpa using hpos)
      (by simp)
    rw [List.length_range, ← List.range_eq_range'] at hread
    rw [Nat.zero_add] at hread
    rw [hread, getD_range _ _ hpos, hval r j hr (by simpa using hj),
      getD_replicate _ _ _ hj]

/-- Witness for C2 with three participants, row length two, row 2 column 1. -/
theorem c2_rank_rows_write_read_w :
    ∃ (final rb : List Int),
      allRanksWrite 3 2 (List.replicate (3 * 2) 0) = Except.ok final ∧
      readDataset SelectionSpec.all [3, 2] SelectionSpec.all [3 * 2] final
        (Option.some (List.replicate (3 * 2) 0)) =
        Except.ok (Option.some rb) ∧
      rb.getD (2 * 2 + 1) 0 = (2 : Int) :=
  c2_rank_rows_write_read 3 2 2 1 (by decide) (by decide)

/-- From the one-proc-zero-selection tests: rank 0's file-side selection with
`count = 0` and `block = 0` in every dimension, an empty selection. -/
def zeroRowSel : SelectionSpec :=
  SelectionSpec.hyperslab [⟨0, 1, 0, 0⟩, ⟨0, 1, 0, 0⟩]

theorem zeroRowWrite_ok (n k : Nat) (d : List Int) :
    writeDataset SelectionSpec.all [0] zeroRowSel [n, k] Option.none d =
      Except.ok d := by
  simp [writeDataset, planTransfer, cardinality, zeroRowSel, linearize,
    allOffsets, execWrite]

/-- From the zero-selection write test: rank 0 participates with an empty
selection and no allocated buffer while every other rank writes its rank
value into its own row. -/
def oneProcZeroWrite (n k : Nat) (ds : List Int) :
    Except TransferError (List Int) :=
  (List.range n).foldlM
    (fun d r =>
      if r = 0 then
        writeDataset SelectionSpec.all [0] zeroRowSel [n, k] Option.none d
      else rankRowWrite n k r d) ds

/-- C6: with rank 0 selecting zero elements and every other rank `r` writing
its rank value into row `r`, the whole operation completes without error,
every row other than row 0 ends up filled with its writer's rank, and row 0
is left exactly as it was before the operation. -/
theorem c6_one_proc_zero_selection (n k : Nat) (ds : List Int)
    (hlen : ds.length = n * k) :
    ∃ final, oneProcZeroWrite n k ds = Except.ok final ∧
      (∀ r j, 1 ≤ r → r < n → j < k → final.getD (r * k + j) 0 = (r : Int)) ∧
      (∀ j, j < k → final.getD j 0 = ds.getD j 0) := by
  obtain ⟨final, hfin, -, hval, hframe⟩ :=
    foldRows_ok n k
      (fun d r =>
        if r = 0 then
          writeDataset SelectionSpec.all [0] zeroRowSel [n, k] Option.none d
        else rankRowWrite n k r d)
      (fun r => if r = 0 then [] else List.replicate k (r : Int))
      (fun d r _ _ => by
        by_cases h0 : r = 0
        · subst h0
          simp [zeroRowWrite_ok, setVals]
        · simp [h0, rankRowWrite_ok])
      (fun r _ => by
        by_cases h0 : r = 0 <;> simp [h0])
      n ds (Nat.le_refl n) hlen
  refine ⟨final, hfin, ?_, ?_⟩
  · intro r j h1 hr hj
    have hne : ¬r = 0 := by omega
    have hv := hval r j hr (by simp [hne, hj])
    rw [hv]
    simp only [hne, if_false]
    exact getD_replicate _ _ _ hj
  · intro j hj
    apply hframe
    intro r hr
    by_cases h0 : r = 0
    · subst h0
      right
      simp
    · left
      have h1 : 1 ≤ r := Nat.pos_of_ne_zero h0
      have h2 : k ≤ r * k := by
        calc k = 1 * k := (Nat.one_mul k).symm
        _ ≤ r * k := Nat.mul_le_mul_right k h1
      omega

/-- Witness for C6 with three participants and row length two, starting from
a dataset whose row 0 holds nonzero sentinel values. -/
theorem c6_one_proc_zero_selection_w :
    ∃ final,
      oneProcZeroWrite 3 2 [9, 8, 0, 0, 0, 0] = Except.ok final ∧
      (∀ r j, 1 ≤ r → r < 3 → j < 2 →
        final.getD (r * 2 + j) 0 = (r : Int)) ∧
      (∀ j, j < 2 →
        final.getD j 0 = ([9, 8, 0, 0, 0, 0] : List Int).getD j 0) :=
  c6_one_proc_zero_selection 3 2 [9, 8, 0, 0, 0, 0] (by decide)

/-- From the point-file/hyperslab-memory write test: rank `r`'s file-side
point selection, the coordinates `(r, 0), (r, 1), ..., (r, k-1)` of row `r`
in caller order. -/
def rowCoords (r k : Nat) : SelectionSpec :=
  SelectionSpec.points ((List.range k).map fun j => [r, j])

/-- From the point-file/hyperslab-memory write test: the memory-side strided
hyperslab `start = 0`, `stride = 2`, `count = k`, `block = 1`, selecting
every other element of a double-sized linear buffer. -/
def evenSel (k : Nat) : SelectionSpec :=
  SelectionSpec.hyperslab [⟨0, 2, k, 1⟩]

/-- From the same test: the double-sized memory buffer with holes, real data
at even indices and zero filler at odd indices. -/
def spread : List Int → List Int
  | [] => []
  | v :: vs => v :: 0 :: spread vs

theorem linearize_rowCoords (n k r : Nat) :
    linearize (rowCoords r k) [n, k] = List.range' (r * k) k := by
  simp [rowCoords, linearize, flatOffset, List.map_map, Function.comp_def,
    List.range'_eq_map_range]

theorem linearize_evenSel (k : Nat) :
    linearize (evenSel k) [2 * k] = (List.range k).map fun c => c * 2 := by
  rw [List.map_eq_flatMap]
  simp [evenSel, linearize, hyperOffsets, hdimIndices, List.range_succ,
    List.flatMap_cons, List.flatMap_nil, List.map_map, Function.comp_def]

theorem spread_getD_even : ∀ (V : List Int) (j : Nat),
    (spread V).getD (j * 2) 0 = V.getD j 0
  | [], j => by simp [spread]
  | v :: vs, 0 => rfl
  | v :: vs, j + 1 => by
    have heq : (j + 1) * 2 = j * 2 + 1 + 1 := by omega
    rw [heq, spread, List.getD_cons_succ, List.getD_cons_succ,
      List.getD_cons_succ]
    exact spread_getD_even vs j

theorem take_drop_getD (D : List Int) (a k j : Nat) (hj : j < k) :
    ((D.drop a).take k).getD j 0 = D.getD (a + j) 0 := by
  rw [List.getD_eq_getElem?_getD, List.getD_eq_getElem?_getD,
    List.getElem?_take_of_lt hj, List.getElem?_drop]

theorem pointHyperStep_ok (n k r : Nat) (D d : List Int)
    (hD : D.length = n * k) (hr : r < n) :
    writeDataset (evenSel k) [2 * k] (rowCoords r k) [n, k]
      (Option.some (spread ((D.drop (r * k)).take k))) d =
      Except.ok (setVals (List.zip ((D.drop (r * k)).take k)
        (List.range' (r * k) k)) d) := by
  have hrk : r * k + k ≤ n * k := by
    rw [← Nat.succ_mul]
    exact Nat.mul_le_mul_right k hr
  have hlenV : ((D.drop (r * k)).take k).length = k := by
    rw [List.length_take, List.length_drop, hD]
    exact Nat.min_eq_left (Nat.le_sub_of_add_le' hrk)
  rw [writeDataset_ok _ _ _ _ _ _ (by simp [cardinality, evenSel, rowCoords]),
    linearize_evenSel, linearize_rowCoords, List.map_map]
  have hfun : ((fun mo => (spread ((D.drop (r * k)).take k)).getD mo 0) ∘
      fun c => c * 2) = fun c => ((D.drop (r * k)).take k).getD c 0 := by
    funext c
    exact spread_getD_even _ c
  rw [hfun, map_getD_eq_self _ _ hlenV]

/-- From the point-file/hyperslab-memory write test: all `n` participants
write their row of the data through the even-index strided hyperslab on the
memory side and the row's point list on the file side, in rank order. -/
def pointHyperWrite (n k : Nat) (D ds : List Int) :
    Except TransferError (List Int) :=
  (List.range n).foldlM
    (fun d r => writeDataset (evenSel k) [2 * k] (rowCoords r k) [n, k]
      (Option.some (spread ((D.drop (r * k)).take k))) d) ds

/-- C1: pairing is position-based, not offset-based: pushing the data through
a strided stride-2/block-1 hyperslab over a double-sized holey buffer on the
memory side and a point selection on the file side produces exactly the same
dataset as a direct All-to-All transfer of the same data. -/
theorem c1_position_based_pairing (n k : Nat) (D ds : List Int)
    (hD : D.length = n * k) (hds : ds.length = n * k) :
    pointHyperWrite n k D ds =
      writeDataset SelectionSpec.all [n * k] SelectionSpec.all [n, k]
        (Option.some D) ds := by
  rw [writeDataset_ok _ _ _ _ _ _ (by simp [cardinality, Nat.mul_assoc]),
    linearize_all_extent1, linearize_all_extent2, map_getD_eq_self D (n * k) hD]
  obtain ⟨final, hfin, hlen2, hval, -⟩ :=
    foldRows_ok n k
      (fun d r => writeDataset (evenSel k) [2 * k] (rowCoords r k) [n, k]
        (Option.some (spread ((D.drop (r * k)).take k))) d)
      (fun r => (D.drop (r * k)).take k)
      (fun d r hr _ => by
        dsimp only
        rw [pointHyperStep_ok n k r D d hD hr]
        have hrk : r * k + k ≤ n * k := by
          rw [← Nat.succ_mul]
          exact Nat.mul_le_mul_right k hr
        have hlenV : ((D.drop (r * k)).take k).length = k := by
          rw [List.length_take, List.length_drop, hD]
          exact Nat.min_eq_left (Nat.le_sub_of_add_le' hrk)
        rw [hlenV])
      (fun r _ => by
        rw [List.length_take]
        exact Nat.min_le_left _ _)
      n ds (Nat.le_refl n) hds
  rw [pointHyperWrite, hfin]
  congr 1
  apply List.ext_getElem
  · rw [hlen2, setVals_length, hds]
  · intro i hi1 hi2
    have hiN : i < n * k := by
      rw [setVals_length, hds] at hi2
      exact hi2
    have hk : 0 < k := by
      rcases Nat.eq_zero_or_pos k with h | h
      · subst h
        simp at hiN
      · exact h
    have hj : i % k < k := Nat.mod_lt _ hk
    have hr : i / k < n := (Nat.div_lt_iff_lt_mul hk).mpr hiN
    have hrk : (i / k) * k + k <= n * k := by
      rw [<- Nat.succ_mul]
      exact Nat.mul_le_mul_right k hr
    have hlenV : ((D.drop ((i / k) * k)).take k).length = k := by
      rw [List.length_take, List.length_drop, hD]
      exact Nat.min_eq_left (Nat.le_sub_of_add_le' hrk)
    have hdm : (i / k) * k + i % k = i := Nat.div_add_mod' i k
    have hlhs : final.getD i 0 = D.getD i 0 := by
      have hv := hval (i / k) (i % k) hr (by rw [hlenV]; exact hj)
      rw [take_drop_getD _ _ _ _ hj, hdm] at hv
      exact hv
    have hrhs : (setVals (List.zip D (List.range (n * k))) ds).getD i 0 =
        D.getD i 0 := by
      have h0 := setVals_range'_getD D 0 ds i (by rw [hD]; exact hiN)
        (by rw [Nat.zero_add, hD, hds])
      rw [Nat.zero_add] at h0
      rw [hD, <- List.range_eq_range'] at h0
      exact h0
    calc final[i] = final.getD i 0 := (List.getD_eq_getElem _ _ hi1).symm
      _ = D.getD i 0 := hlhs
      _ = (setVals (List.zip D (List.range (n * k))) ds).getD i 0 := hrhs.symm
      _ = (setVals (List.zip D (List.range (n * k))) ds)[i] :=
        List.getD_eq_getElem _ _ hi2

/-- Witness for C1 with two participants, row length two and concrete data. -/
theorem c1_position_based_pairing_w :
    pointHyperWrite 2 2 [10, 20, 30, 40] [0, 0, 0, 0] =
      writeDataset SelectionSpec.all [2 * 2] SelectionSpec.all [2, 2]
        (Option.some [10, 20, 30, 40]) [0, 0, 0, 0] :=
  c1_position_based_pairing 2 2 [10, 20, 30, 40] [0, 0, 0, 0]
    (by decide) (by decide)

/-- Modelled from the spec: build-time validity of one hyperslab dimension
against its extent entry (violations are `InvalidSelection` at construction):
nonzero stride, non-overlapping blocks (block not exceeding stride, as the
backend rejects overlapping hyperslab blocks), and the data model's in-bounds
invariant `start + stride * (count - 1) + block <= extent`. -/
def validDim (e : Nat) (d : HDim) : Prop :=
  1 ≤ d.stride ∧ d.block ≤ d.stride ∧
    d.start + d.stride * (d.count - 1) + d.block ≤ e

instance validDim.dec (e : Nat) (d : HDim) : Decidable (validDim e d) := by
  unfold validDim
  infer_instance

/-- Modelled from the spec: a hyperslab selection is valid over an extent when
it has one valid dimension entry per extent dimension. -/
def validSlab (ds : List HDim) (es : List Nat) : Prop :=
  List.Forall₂ (fun d e => validDim e d) ds es

theorem hdimIndices_sorted (e : Nat) (d : HDim) (hv : validDim e d) :
    (hdimIndices d).Pairwise (· < ·) ∧ ∀ x ∈ hdimIndices d, x < e := by
  obtain ⟨hs, hbs, hbound⟩ := hv
  constructor
  · rw [hdimIndices, List.pairwise_flatMap]
    constructor
    · intro c _
      rw [List.pairwise_map]
      exact (List.pairwise_lt_range _).imp fun h => by omega
    · refine List.Pairwise.imp ?_ (List.pairwise_lt_range _)
      intro c1 c2 hc x hx y hy
      rcases List.mem_map.mp hx with ⟨b1, hb1, rfl⟩
      rcases List.mem_map.mp hy with ⟨b2, hb2, rfl⟩
      have hb1' : b1 < d.stride :=
        Nat.lt_of_lt_of_le (List.mem_range.mp hb1) hbs
      have h1 : c1 * d.stride + d.stride ≤ c2 * d.stride := by
        rw [← Nat.succ_mul]
        exact Nat.mul_le_mul_right _ hc
      calc d.start + c1 * d.stride + b1
          = d.start + (c1 * d.stride + b1) := by rw [Nat.add_assoc]
        _ < d.start + c2 * d.stride := by
            have h2 : c1 * d.stride + b1 < c2 * d.stride := by
              have h3 := Nat.add_lt_add_left hb1' (c1 * d.stride)
              exact Nat.lt_of_lt_of_le h3 h1
            exact Nat.add_lt_add_left h2 d.start
        _ ≤ d.start + c2 * d.stride + b2 := Nat.le_add_right _ _
  · intro x hx
    rw [hdimIndices] at hx
    rcases List.mem_flatMap.mp hx with ⟨c, hc, hx2⟩
    rcases List.mem_map.mp hx2 with ⟨b, hb, rfl⟩
    have hc' : c < d.count := List.mem_range.mp hc
    have hb' : b < d.block := List.mem_range.mp hb
    have h1 : c * d.stride ≤ d.stride * (d.count - 1) := by
      rw [Nat.mul_comm]
      exact Nat.mul_le_mul_left _ (by omega)
    calc d.start + c * d.stride + b
        < d.start + c * d.stride + d.block := Nat.add_lt_add_left hb' _
      _ ≤ d.start + d.stride * (d.count - 1) + d.block := by
          have := Nat.add_le_add_left h1 d.start
          exact Nat.add_le_add_right this d.block
      _ ≤ e := hbound

theorem hyperOffsets_sorted_bounded {dims : List HDim} {es : List Nat}
    (hv : validSlab dims es) :
    (hyperOffsets dims es).Pairwise (· < ·) ∧
    ∀ x ∈ hyperOffsets dims es, x < listProd es := by
  induction hv with
  | nil =>
    constructor
    · exact List.pairwise_singleton _ _
    · intro x hx
      rw [hyperOffsets] at hx
      simp at hx
      simp [hx]
  | @cons d e ds es hde htail ih =>
    obtain ⟨hin_pw, hin_bd⟩ := ih
    obtain ⟨hd_pw, hd_bd⟩ := hdimIndices_sorted e d hde
    constructor
    · rw [hyperOffsets, List.pairwise_flatMap]
      constructor
      · intro i _
        rw [List.pairwise_map]
        exact hin_pw.imp fun h => by omega
      · refine List.Pairwise.imp ?_ hd_pw
        intro i1 i2 hi x hx y hy
        rcases List.mem_map.mp hx with ⟨o1, ho1, rfl⟩
        rcases List.mem_map.mp hy with ⟨o2, ho2, rfl⟩
        have ho1' : o1 < listProd es := hin_bd o1 ho1
        have h1 : i1 * listProd es + listProd es ≤ i2 * listProd es := by
          rw [← Nat.succ_mul]
          exact Nat.mul_le_mul_right _ hi
        calc i1 * listProd es + o1
            < i1 * listProd es + listProd es := Nat.add_lt_add_left ho1' _
          _ ≤ i2 * listProd es := h1
          _ ≤ i2 * listProd es + o2 := Nat.le_add_right _ _
    · intro x hx
      rw [hyperOffsets] at hx
      rcases List.mem_flatMap.mp hx with ⟨i, hi, hx2⟩
      rcases List.mem_map.mp hx2 with ⟨o, ho, rfl⟩
      have hi' : i < e := hd_bd i hi
      have ho' : o < listProd es := hin_bd o ho
      calc i * listProd es + o
          < i * listProd es + listProd es := Nat.add_lt_add_left ho' _
        _ = (i + 1) * listProd es := by rw [Nat.succ_mul]
        _ ≤ e * listProd es := Nat.mul_le_mul_right _ hi'
        _ = listProd (e :: es) := (listProd_cons e es).symm

theorem setVals_zip_nodup_getD : ∀ (B : List Int) (offs : List Nat)
    (ds : List Int) (t : Nat), offs.Nodup → (∀ o ∈ offs, o < ds.length) →
    B.length = offs.length → t < offs.length →
    (setVals (List.zip B offs) ds).getD (offs.getD t 0) 0 = B.getD t 0
  | _, [], _, t, _, _, _, ht => absurd ht (by simp)
  | [], o :: os, _, _, _, _, hlen, _ => by simp at hlen
  | b :: Bs, o :: os, ds, t, hnd, hbd, hlen, ht => by
    rw [List.zip_cons_cons, setVals]
    have hnd' := List.nodup_cons.mp hnd
    cases t with
    | zero =>
      rw [List.getD_cons_zero, List.getD_cons_zero]
      rw [setVals_getD_of_notin]
      · exact getD_set_self ds o b (hbd o (List.mem_cons_self _ _))
      · intro pr hm hbad
        have h2 := (List.of_mem_zip hm).2
        rw [hbad] at h2
        exact hnd'.1 h2
    | succ t' =>
      rw [List.getD_cons_succ, List.getD_cons_succ]
      exact setVals_zip_nodup_getD Bs os (ds.set o b) t' hnd'.2
        (fun o' ho' => by
          rw [List.length_set]
          exact hbd o' (List.mem_cons_of_mem _ ho'))
        (by simpa using hlen) (by simpa using ht)

/-- C3: round-trip identity: for every valid hyperslab over the file extent
and every buffer whose All-selection cardinality equals the hyperslab's,
writing the buffer through (All over memory, hyperslab over file) and reading
back through (hyperslab over file, All over memory) reproduces the buffer
exactly. -/
theorem c3_round_trip (dims : List HDim) (fileExt memExt : List Nat)
    (B ds b0 : List Int)
    (hv : validSlab dims fileExt)
    (hcard : cardinality (SelectionSpec.hyperslab dims) fileExt =
      listProd memExt)
    (hB : B.length = listProd memExt)
    (hds : ds.length = listProd fileExt)
    (hb0 : b0.length = listProd memExt) :
    ∃ ds', writeDataset SelectionSpec.all memExt
        (SelectionSpec.hyperslab dims) fileExt (Option.some B) ds =
        Except.ok ds' ∧
      readDataset (SelectionSpec.hyperslab dims) fileExt
        SelectionSpec.all memExt ds' (Option.some b0) =
        Except.ok (Option.some B) := by
  have hrank : dims.length = fileExt.length := hv.length_eq
  have hrk : specRankMatches (SelectionSpec.hyperslab dims) fileExt = true := by
    simp [specRankMatches, hrank]
  have hlenOffs : (hyperOffsets dims fileExt).length = listProd memExt := by
    have h := linearize_length (SelectionSpec.hyperslab dims) fileExt hrk
    rw [show linearize (SelectionSpec.hyperslab dims) fileExt =
      hyperOffsets dims fileExt from rfl] at h
    rw [h, hcard]
  obtain ⟨hpw, hbd⟩ := hyperOffsets_sorted_bounded hv
  have hnodup : (hyperOffsets dims fileExt).Nodup :=
    hpw.imp fun h => Nat.ne_of_lt h
  have hcard' : cardinality SelectionSpec.all memExt =
      cardinality (SelectionSpec.hyperslab dims) fileExt := by
    rw [hcard]
    rfl
  refine ⟨setVals (List.zip B (hyperOffsets dims fileExt)) ds, ?_, ?_⟩
  · rw [writeDataset_ok _ _ _ _ _ _ hcard',
      show linearize SelectionSpec.all memExt =
        List.range (listProd memExt) from allOffsets_eq_range memExt,
      map_getD_eq_self B _ hB]
    rfl
  · rw [readDataset_ok _ _ _ _ _ _ hcard'.symm,
      show linearize SelectionSpec.all memExt =
        List.range (listProd memExt) from allOffsets_eq_range memExt,
      show List.range (listProd memExt) =
        List.range' 0 (hyperOffsets dims fileExt).length by
        rw [hlenOffs, List.range_eq_range']]
    have hmain : execReadGo (List.zip (linearize
        (SelectionSpec.hyperslab dims) fileExt)
        (List.range' 0 (hyperOffsets dims fileExt).length))
        (setVals (List.zip B (hyperOffsets dims fileExt)) ds) b0 = B := by
      apply List.ext_getElem
      · rw [execReadGo_length, hb0, hB]
      · intro i h1 h2
        have hiM : i < listProd memExt := by rwa [hB] at h2
        have hread := execReadGo_zip_range'_getD (hyperOffsets dims fileExt) 0
          (setVals (List.zip B (hyperOffsets dims fileExt)) ds) b0 i
          (by rw [hlenOffs]; exact hiM) (by rw [Nat.zero_add, hlenOffs, hb0])
        rw [Nat.zero_add] at hread
        have hset := setVals_zip_nodup_getD B (hyperOffsets dims fileExt) ds i
          hnodup (fun o ho => by rw [hds]; exact hbd o ho)
          (by rw [hB, hlenOffs]) (by rw [hlenOffs]; exact hiM)
        calc (execReadGo (List.zip (linearize
              (SelectionSpec.hyperslab dims) fileExt)
              (List.range' 0 (hyperOffsets dims fileExt).length))
              (setVals (List.zip B (hyperOffsets dims fileExt)) ds) b0)[i]
            = (execReadGo (List.zip (hyperOffsets dims fileExt)
              (List.range' 0 (hyperOffsets dims fileExt).length))
              (setVals (List.zip B (hyperOffsets dims fileExt)) ds)
              b0).getD i 0 := (List.getD_eq_getElem _ _ h1).symm
          _ = (setVals (List.zip B (hyperOffsets dims fileExt)) ds).getD
              ((hyperOffsets dims fileExt).getD i 0) 0 := hread
          _ = B.getD i 0 := hset
          _ = B[i] := List.getD_eq_getElem _ _ h2
    rw [hmain]

/-- Witness for C3: the stride-2 hyperslab `start 1, count 2, block 1` over a
one-dimensional extent of five, round-tripping the buffer `[7, 8]`. -/
theorem c3_round_trip_w :
    ∃ ds', writeDataset SelectionSpec.all [2]
        (SelectionSpec.hyperslab [⟨1, 2, 2, 1⟩]) [5] (Option.some [7, 8])
        [0, 0, 0, 0, 0] = Except.ok ds' ∧
      readDataset (SelectionSpec.hyperslab [⟨1, 2, 2, 1⟩]) [5]
        SelectionSpec.all [2] ds' (Option.some [0, 0]) =
        Except.ok (Option.some [7, 8]) :=
  c3_round_trip [⟨1, 2, 2, 1⟩] [5] [2] [7, 8] [0, 0, 0, 0, 0] [0, 0]
    (List.Forall₂.cons (by decide) List.Forall₂.nil)
    (by decide) (by decide) (by decide) (by decide)
